import Mathlib

/-!
Verification development for the mailbox fraud-scan script (`src/Scammer_Tracker.py`).

The script is embedded shallowly:

* the regex-based dual-pattern classifier (`_compile_terms`, `PAT_CHANGE`,
  `PAT_ADDRBANK`, `qualifies`) becomes executable word/phrase matching over
  `List Char`, with `re.IGNORECASE` modelled by lower-casing both sides and
  `\b` modelled by inspecting the neighbouring characters;
* the paginated fetch loop (`fetch_pages`) becomes a recursive function over a
  finite script of HTTP responses, recording the requests issued, the sleeps
  performed and the pages yielded;
* the scan driver loop in `main` becomes explicit state passing over a list of
  pages, with the caps as `Int` (Python ints from the environment);
* the CSV output (`csv.DictWriter` with the default dialect: delimiter `,`,
  quote character 34, lineterminator CRLF, minimal quoting) becomes a renderer
  plus a reader used to state round-trip properties;
* `get_token` becomes a function of oracles for the MSAL cache load, the silent
  acquisition, the device flow and the device-flow exchange.

Note on the source: line 41 of the script reads
`PAT_CHANGE = _compile_terms(CHANGE_SINGLE, CHANGE_PHRASE)` but `CHANGE_PHRASE`
is defined nowhere in the repository, so importing the module raises
`NameError`.  The classifier below therefore models `CHANGE_PHRASE` from the
spec (whose action term set lists only single words) as the empty phrase list.
-/

namespace ScamTracker

/-- Python regex word character, restricted to the ASCII range relevant to the
term lists: letters, digits and the underscore. -/
def isWordChar (c : Char) : Bool := c.isAlphanum || c = '_'

/-- Case-folded character list of a string; models `re.IGNORECASE` by lowering
both the text and the (ASCII) terms. -/
def lowerChars (s : String) : List Char := s.data.map Char.toLower

/-- Occurrence of the literal pattern `t` at offset `i` of `s`. -/
def occursAt (t s : List Char) (i : Nat) : Bool := (s.drop i).take t.length == t

/-- Boundary test of `\b` next to a fully-word-character pattern: the adjacent
character (if any) must not be a word character. -/
def boundaryOk (oc : Option Char) : Bool :=
  match oc with
  | none => true
  | some c => !isWordChar c

/-- Occurrence of the word-bounded pattern `\b t \b` at offset `i` of `s`. -/
def wordAt (t s : List Char) (i : Nat) : Bool :=
  occursAt t s i
    && boundaryOk (if i = 0 then none else s[i - 1]?)
    && boundaryOk s[i + t.length]?

/-- Search of a word-bounded single term anywhere in the text (`re.search`). -/
def wordFound (t s : List Char) : Bool := (List.range (s.length + 1)).any (wordAt t s)

/-- Search of a literal phrase anywhere in the text (`re.search` on the escaped
phrase). -/
def phraseFound (t s : List Char) : Bool := (List.range (s.length + 1)).any (occursAt t s)

/-- Semantics of `_compile_terms(single, phrase).search(text)`: the alternation
hits iff some single term occurs word-bounded or some phrase occurs literally.
The caller passes `text` already lower-cased. -/
def termsHit (single phrase : List String) (text : List Char) : Bool :=
  single.any (fun t => wordFound (lowerChars t) text)
    || phrase.any (fun p => phraseFound (lowerChars p) text)

/-- Action single-word terms (`CHANGE_SINGLE` in the source). -/
def CHANGE_SINGLE : List String :=
  ["change", "modify", "switch", "update", "alter", "revise", "amend", "edit"]

/-- Modelled from the spec: `CHANGE_PHRASE` is referenced at source line 41 but
never defined (importing the module raises `NameError`); the spec's action term
set lists only single words, so the phrase component is the empty list. -/
def CHANGE_PHRASE : List String := []

/-- Address single-word terms (`ADDR_SINGLE`). -/
def ADDR_SINGLE : List String := ["address"]

/-- Address phrases (`ADDR_PHRASE`). -/
def ADDR_PHRASE : List String :=
  ["mailing address", "billing address", "remit to", "remittance address", "ship to"]

/-- Banking single-word terms (`BANK_SINGLE`). -/
def BANK_SINGLE : List String := ["ach"]

/-- Banking phrases (`BANK_PHRASE`). -/
def BANK_PHRASE : List String :=
  ["bank account", "bank information", "bank details",
   "routing information", "routing number", "account number",
   "wire instructions", "direct deposit", "payment details",
   "routing #", "acct #", "account #", "bank acct"]

/-- Search with `PAT_CHANGE` (action matcher). -/
def patChangeHits (text : List Char) : Bool := termsHit CHANGE_SINGLE CHANGE_PHRASE text

/-- Search with `PAT_ADDRBANK` (target matcher, address and banking terms). -/
def patAddrBankHits (text : List Char) : Bool :=
  termsHit (ADDR_SINGLE ++ BANK_SINGLE) (ADDR_PHRASE ++ BANK_PHRASE) text

/-- Combined text blob of `qualifies`: subject, newline, preview, with a `None`
field behaving as the empty string (Python `subject or ""`), lower-cased for
the case-insensitive search. -/
def blobText (subject preview : Option String) : List Char :=
  lowerChars ((subject.getD "") ++ "\n" ++ (preview.getD ""))

/-- Classifier `qualifies(subject, preview)`: both matchers must hit the
combined text. -/
def qualifies (subject preview : Option String) : Bool :=
  patChangeHits (blobText subject preview) && patAddrBankHits (blobText subject preview)

/-- Specification-side predicate: `p` occurs in `text` as a literal substring. -/
def SubstrIn (p text : List Char) : Prop := ∃ l r, text = l ++ p ++ r

/-- Specification-side predicate: the context list ends in no word character
(so a word boundary lies between it and what follows). -/
def NoWordEnd (l : List Char) : Prop := ∀ c, l.getLast? = some c → isWordChar c = false

/-- Specification-side predicate: the context list starts with no word
character. -/
def NoWordStart (r : List Char) : Prop := ∀ c, r.head? = some c → isWordChar c = false

/-- Specification-side predicate: `w` occurs in `text` delimited by word
boundaries on both sides, so it does not match inside a longer word. -/
def WordIn (w text : List Char) : Prop :=
  ∃ l r, text = l ++ w ++ r ∧ NoWordEnd l ∧ NoWordStart r

/-- Specification-side reading of an action-matcher hit. -/
def ActionHit (text : List Char) : Prop :=
  (∃ t ∈ CHANGE_SINGLE, WordIn (lowerChars t) text)
    ∨ (∃ p ∈ CHANGE_PHRASE, SubstrIn (lowerChars p) text)

/-- Specification-side reading of a target-matcher hit. -/
def TargetHit (text : List Char) : Prop :=
  (∃ t ∈ ADDR_SINGLE ++ BANK_SINGLE, WordIn (lowerChars t) text)
    ∨ (∃ p ∈ ADDR_PHRASE ++ BANK_PHRASE, SubstrIn (lowerChars p) text)

/-- Characters stripped by Python `str.strip()` on the ASCII range. -/
def isPySpace (c : Char) : Bool :=
  c = ' ' || c = '\t' || c = '\n' || c = '\r' || c = Char.ofNat 11 || c = Char.ofNat 12

/-- Python `s.strip()`. -/
def pyStrip (l : List Char) : List Char :=
  ((l.dropWhile isPySpace).reverse.dropWhile isPySpace).reverse

/-- One fetched message.  The nested sender lookup
`(msg.get("from") or {}).get("emailAddress", {}).get("address")` is collapsed
into `sender`, which is `none` exactly when any level is missing. -/
structure Msg where
  id : Option String
  internetMessageId : Option String
  sender : Option String
  receivedDateTime : Option String
  subject : Option String
  bodyPreview : Option String
  webLink : Option String
deriving DecidableEq

/-- Subject cleaning in the scan loop:
`(msg.get("subject") or "").replace("\r"," ").replace("\n"," ").strip()`. -/
def cleanSubject (subject : Option String) : String :=
  String.mk (pyStrip ((subject.getD "").data.map
    (fun c => if c = '\r' || c = '\n' then ' ' else c)))

/-- Record retained for a qualifying message, fields in the insertion order of
the dict literal in `main` (which fixes the CSV header order). -/
structure MatchRecord where
  id : Option String
  internetMessageId : Option String
  sender : Option String
  receivedDateTime : Option String
  subject : String
  webLink : Option String
deriving DecidableEq

/-- Match Record built from a message in the scan loop. -/
def recOf (m : Msg) : MatchRecord :=
  { id := m.id
    internetMessageId := m.internetMessageId
    sender := m.sender
    receivedDateTime := m.receivedDateTime
    subject := cleanSubject m.subject
    webLink := m.webLink }

/-- Classification of one message as done in the scan loop: the cleaned
subject and the preview (`msg.get("bodyPreview") or ""`) go to `qualifies`. -/
def qualMsg (m : Msg) : Bool :=
  qualifies (some (cleanSubject m.subject)) (some (m.bodyPreview.getD ""))

/-- Mutable state of the scan loop in `main`. -/
structure ScanState where
  scanned : Nat
  matchList : List MatchRecord
deriving DecidableEq

/-- Loop exit condition `scanned >= MAX_SCAN or len(matches) >= MAX_RESULTS`.
The caps are Python ints, hence `Int`. -/
def capReached (maxScan maxResults : Int) (st : ScanState) : Bool :=
  decide (maxScan ≤ (st.scanned : Int)) || decide (maxResults ≤ (st.matchList.length : Int))

/-- Body of the inner loop for one message: increment `scanned`, append a
Match Record when the message qualifies. -/
def processMsg (m : Msg) (st : ScanState) : ScanState :=
  { scanned := st.scanned + 1
    matchList := st.matchList ++ (if qualMsg m then [recOf m] else []) }

/-- Inner loop `for msg in page`, with the cap check after every item. -/
def scanItems (maxScan maxResults : Int) : List Msg → ScanState → ScanState
  | [], st => st
  | m :: rest, st =>
    if capReached maxScan maxResults (processMsg m st) then processMsg m st
    else scanItems maxScan maxResults rest (processMsg m st)

/-- Outer loop `for page, total in fetch_pages(token)`, with the cap check
repeated after every page. -/
def scanPages (maxScan maxResults : Int) : List (List Msg) → ScanState → ScanState
  | [], st => st
  | p :: rest, st =>
    if capReached maxScan maxResults (scanItems maxScan maxResults p st) then
      scanItems maxScan maxResults p st
    else scanPages maxScan maxResults rest (scanItems maxScan maxResults p st)

/-- Whole scan of `main` over the fetched pages, starting from zero counters. -/
def runScan (maxScan maxResults : Int) (pages : List (List Msg)) : ScanState :=
  scanPages maxScan maxResults pages { scanned := 0, matchList := [] }

/-- Value of a digit character. -/
def digitVal (c : Char) : Nat := c.toNat - 48

/-- Validity of the tail of a Python integer literal: digits, with single
underscores allowed only between digits. -/
def digitsOk : List Char → Bool
  | [] => true
  | ['_'] => false
  | '_' :: d :: rest => d.isDigit && digitsOk rest
  | d :: rest => d.isDigit && digitsOk rest

/-- Numeric value of a digit string, ignoring underscore separators. -/
def digitsVal (l : List Char) : Nat :=
  (l.filter Char.isDigit).foldl (fun a c => a * 10 + digitVal c) 0

/-- Digit-part parsing of Python `int(str)` after sign removal. -/
def pyIntCore (neg : Bool) : List Char → Option Int
  | [] => none
  | d :: rest =>
    if d.isDigit && digitsOk rest then
      some (if neg then -(digitsVal (d :: rest) : Int) else (digitsVal (d :: rest) : Int))
    else none

/-- Model of the builtin `int` applied to a string: optional surrounding
whitespace, optional sign, then ASCII digits with underscore separators.
Anything else (for example an HTTP-date) raises `ValueError`, modelled as
`none`. -/
def pyInt (s : String) : Option Int :=
  match pyStrip s.data with
  | '+' :: rest => pyIntCore false rest
  | '-' :: rest => pyIntCore true rest
  | rest => pyIntCore false rest

/-- One HTTP request as issued by `fetch_pages`: `requests.get(url,
headers=headers, params=params)`. -/
structure Request where
  url : String
  params : Option (List (String × String))
  headers : List (String × String)
deriving DecidableEq

/-- One HTTP response as consumed by `fetch_pages`: status, the `Retry-After`
header, and the decoded JSON fields `value`, `@odata.count` and
`@odata.nextLink`. -/
structure HttpResp where
  status : Nat
  retryAfter : Option String
  value : List Msg
  odataCount : Option Nat
  nextLink : Option String
deriving DecidableEq

/-- Loop state of `fetch_pages`: the current `url` and `params` (the latter is
reset to `None` once a continuation link is followed), the constant `headers`,
and the first-page flag with the carried total estimate. -/
structure ReqState where
  url : String
  params : Option (List (String × String))
  headers : List (String × String)
  first : Bool
  totalEst : Option Nat
deriving DecidableEq

/-- Request issued from the current loop state. -/
def ReqState.req (st : ReqState) : Request :=
  { url := st.url, params := st.params, headers := st.headers }

/-- Observable trace of a `fetch_pages` run: requests issued, sleeps performed
(rate-limit backoff), pages yielded with their total estimate. -/
structure FetchTrace where
  requests : List Request
  sleeps : List Int
  pages : List (List Msg × Option Nat)
deriving DecidableEq

/-- End state of a `fetch_pages` run against a finite response script. -/
inductive FetchEnd where
  | done
  | pending
  | errValue
  | errHttp (status : Nat)
deriving DecidableEq

/-- Loop state after following a continuation link: the link is used verbatim
as the new URL, `params` is reset to `None`, the headers are unchanged, and
the total estimate of the first page is carried along. -/
def nextState (st : ReqState) (r : HttpResp) (link : String) : ReqState :=
  { url := link, params := none, headers := st.headers, first := false
    totalEst := if st.first then r.odataCount else st.totalEst }

/-- Run of the `while True` loop of `fetch_pages` against a finite script of
responses, one response per issued request.  `pending` means the script was
exhausted while the loop still wanted to issue a request (we do not record that
unanswered request).  A 429 response sleeps for `int` of the `Retry-After`
header (default string "5") and retries with the state unchanged; a failed
`int` conversion is the uncaught `ValueError` (`errValue`); any status of 400
or above raises through `raise_for_status` (`errHttp`); otherwise the page is
yielded, the total estimate is taken from the first response only, and the loop
either follows `@odata.nextLink` verbatim with `params = None` or ends. -/
def runFetch : ReqState → List HttpResp → FetchTrace × FetchEnd
  | _, [] => ({ requests := [], sleeps := [], pages := [] }, FetchEnd.pending)
  | st, r :: rest =>
    if r.status = 429 then
      match pyInt (r.retryAfter.getD "5") with
      | none => ({ requests := [st.req], sleeps := [], pages := [] }, FetchEnd.errValue)
      | some k =>
        ({ requests := st.req :: (runFetch st rest).1.requests
           sleeps := k :: (runFetch st rest).1.sleeps
           pages := (runFetch st rest).1.pages }, (runFetch st rest).2)
    else if 400 ≤ r.status then
      ({ requests := [st.req], sleeps := [], pages := [] }, FetchEnd.errHttp r.status)
    else
      match r.nextLink with
      | none =>
        ({ requests := [st.req], sleeps := []
           pages := [(r.value, if st.first then r.odataCount else st.totalEst)] }, FetchEnd.done)
      | some link =>
        ({ requests := st.req :: (runFetch (nextState st r link) rest).1.requests
           sleeps := (runFetch (nextState st r link) rest).1.sleeps
           pages := (r.value, if st.first then r.odataCount else st.totalEst)
             :: (runFetch (nextState st r link) rest).1.pages },
         (runFetch (nextState st r link) rest).2)

/-- Successful, non-rate-limited response. -/
def okResp (r : HttpResp) : Bool := decide (r.status ≠ 429) && decide (r.status < 400)

/-- Specification-side shape of a finite collection: every response succeeds,
all but the last carry a continuation link, the last carries none. -/
def okChain : List HttpResp → Bool
  | [] => false
  | [r] => okResp r && r.nextLink.isNone
  | r :: s :: rest => okResp r && r.nextLink.isSome && okChain (s :: rest)

/-- Script of successful responses that all carry a continuation link. -/
def allLinked (script : List HttpResp) : Bool :=
  script.all (fun r => okResp r && r.nextLink.isSome)

/-- Mailbox constant of the source configuration. -/
def MAILBOX : String := "gmalawi@fabricatedmetals.com"

/-- Endpoint selection of `base_url()`: the sentinel "me" (after
`MAILBOX.strip().lower()`) versus an explicit mailbox address. -/
def base_url : String :=
  if String.mk (pyStrip (MAILBOX.data.map Char.toLower)) = "me" then
    "https://graph.microsoft.com/v1.0/me/messages"
  else "https://graph.microsoft.com/v1.0/users/" ++ MAILBOX ++ "/messages"

/-- Double-quote character (written by code point to keep it out of literals). -/
def quoteChar : Char := Char.ofNat 34

/-- String of a single double quote. -/
def dq : String := String.mk [quoteChar]

/-- Initial query parameters of `fetch_pages` for a given window start. -/
def initParams (since : String) : List (String × String) :=
  [("$filter", "receivedDateTime ge " ++ since),
   ("$orderby", "receivedDateTime desc"),
   ("$top", "50"),
   ("$select", "id,subject,from,receivedDateTime,webLink,internetMessageId,bodyPreview"),
   ("$count", "true")]

/-- Constant headers of `fetch_pages` for a given bearer token. -/
def initHeaders (token : String) : List (String × String) :=
  [("Authorization", "Bearer " ++ token),
   ("ConsistencyLevel", "eventual"),
   ("Prefer", "outlook.body-content-type=" ++ dq ++ "text" ++ dq)]

/-- Quoting test of the default CSV dialect (`QUOTE_MINIMAL`): a field is
quoted iff it contains the delimiter, the quote character, or a character of
the CRLF line terminator. -/
def needsQuote (f : List Char) : Bool :=
  f.any (fun c => c = ',' || c = quoteChar || c = '\r' || c = '\n')

/-- Doubling of embedded quote characters inside a quoted CSV field. -/
def dupQuotes : List Char → List Char
  | [] => []
  | c :: rest => if c = quoteChar then c :: c :: dupQuotes rest else c :: dupQuotes rest

/-- Encoding of one CSV field under the default dialect. -/
def escField (f : List Char) : List Char :=
  if needsQuote f then quoteChar :: (dupQuotes f ++ [quoteChar]) else f

/-- Comma-joined encoded fields of one row. -/
def renderFields : List (List Char) → List Char
  | [] => []
  | [f] => escField f
  | f :: g :: rest => escField f ++ ',' :: renderFields (g :: rest)

/-- One CSV row with the CRLF terminator written by the `csv` module (the file
is opened with `newline=""`, so the terminator reaches the file unchanged). -/
def renderRow (fs : List (List Char)) : List Char := renderFields fs ++ ['\r', '\n']

/-- Whole CSV file content for a list of rows. -/
def renderCsv : List (List (List Char)) → List Char
  | [] => []
  | row :: rest => renderRow row ++ renderCsv rest

/-- Mode of the CSV reader automaton: outside quotes, inside quotes, just saw
a quote while inside quotes (doubled or closing), or just saw a carriage
return outside quotes (CRLF row terminator pending). -/
inductive CsvMode where
  | normal
  | quoted
  | afterQuote
  | afterCR
deriving DecidableEq

/-- Reader for the same dialect (models `csv.reader` re-parsing the file):
one-character automaton with the current field and the current row accumulated
in reverse. -/
def parseAux (mode : CsvMode) (fld : List Char) (row : List (List Char)) :
    List Char → List (List (List Char))
  | [] =>
    match mode with
    | CsvMode.normal =>
      if fld.isEmpty && row.isEmpty then [] else [(fld.reverse :: row).reverse]
    | CsvMode.quoted => [(fld.reverse :: row).reverse]
    | CsvMode.afterQuote => [(fld.reverse :: row).reverse]
    | CsvMode.afterCR => [(('\r' :: fld).reverse :: row).reverse]
  | c :: rest =>
    match mode with
    | CsvMode.quoted =>
      if c = quoteChar then parseAux CsvMode.afterQuote fld row rest
      else parseAux CsvMode.quoted (c :: fld) row rest
    | CsvMode.afterQuote =>
      if c = quoteChar then parseAux CsvMode.quoted (quoteChar :: fld) row rest
      else if c = ',' then parseAux CsvMode.normal [] (fld.reverse :: row) rest
      else if c = '\r' then parseAux CsvMode.afterCR fld row rest
      else parseAux CsvMode.normal (c :: fld) row rest
    | CsvMode.afterCR =>
      if c = '\n' then (fld.reverse :: row).reverse :: parseAux CsvMode.normal [] [] rest
      else if c = ',' then parseAux CsvMode.normal [] (('\r' :: fld).reverse :: row) rest
      else if c = '\r' then parseAux CsvMode.afterCR ('\r' :: fld) row rest
      else parseAux CsvMode.normal (c :: '\r' :: fld) row rest
    | CsvMode.normal =>
      if c = ',' then parseAux CsvMode.normal [] (fld.reverse :: row) rest
      else if c = quoteChar then
        if fld.isEmpty then parseAux CsvMode.quoted [] row rest
        else parseAux CsvMode.normal (c :: fld) row rest
      else if c = '\r' then parseAux CsvMode.afterCR fld row rest
      else parseAux CsvMode.normal (c :: fld) row rest

/-- Parse of a whole CSV file into rows of fields. -/
def parseCsv (l : List Char) : List (List (List Char)) := parseAux CsvMode.normal [] [] l

/-- Header of `hits.csv`: `list(matches[0].keys())`, the dict insertion order
of the Match Record literal in `main`. -/
def headerFields : List String :=
  ["id", "internetMessageId", "from", "receivedDateTime", "subject", "webLink"]

/-- Row written for one Match Record; the `csv` writer renders a `None` value
as the empty string. -/
def recordFields (r : MatchRecord) : List String :=
  [r.id.getD "", r.internetMessageId.getD "", r.sender.getD "",
   r.receivedDateTime.getD "", r.subject, r.webLink.getD ""]

/-- All rows of `hits.csv` for a list of matches: header first, then one row
per match. -/
def csvRows (recs : List MatchRecord) : List (List (List Char)) :=
  (headerFields :: recs.map recordFields).map (List.map String.data)

/-- File content of `hits.csv` for a list of matches. -/
def csvChars (recs : List MatchRecord) : List Char := renderCsv (csvRows recs)

/-- End of `main`: the file is written only when `matches` is non-empty. -/
def csvOutput (found : List MatchRecord) : Option (List Char) :=
  if found.isEmpty then none else some (csvChars found)

/-- Final summary line printed by `main`. -/
def summaryLine (found : List MatchRecord) (scanned : Nat) : String :=
  if found.isEmpty then
    "\n[DONE] No matches found (scanned " ++ toString scanned ++ " msgs)."
  else
    "\n[DONE] Printed " ++ toString found.length ++ " matches (scanned "
      ++ toString scanned ++ " msgs) and saved to hits.csv"

/-- Decidable equality for `Except` results, used to evaluate the token model
on concrete oracles. -/
instance {ε α : Type} [DecidableEq ε] [DecidableEq α] : DecidableEq (Except ε α) := fun a b =>
  match a, b with
  | Except.ok x, Except.ok y =>
    if h : x = y then isTrue (by rw [h]) else isFalse (fun he => h (Except.ok.inj he))
  | Except.error x, Except.error y =>
    if h : x = y then isTrue (by rw [h]) else isFalse (fun he => h (Except.error.inj he))
  | Except.ok _, Except.error _ => isFalse (fun he => Except.noConfusion he)
  | Except.error _, Except.ok _ => isFalse (fun he => Except.noConfusion he)

/-- Python truthiness test `if not result` on an MSAL result: `None` or an
empty dict. -/
def falsyDict : Option (List (String × String)) → Bool
  | none => true
  | some d => d.isEmpty

/-- Model of `get_token()`.  Oracles: `cacheLoad` is the token-cache file
(`none` = missing, `some none` = present but corrupt so `deserialize` raises,
`some (some s)` = loads fine); `silentResult` is what
`acquire_token_silent` returns (dicts as association lists); `flow` is the
device-flow response; `deviceResult` is what `acquire_token_by_device_flow`
returns; `serializedCache` is `cache.serialize()` at the end.  A missing or
corrupt cache is absorbed by the `try/except: pass` around `deserialize`, so
`cacheLoad` cannot influence the outcome; errors are the two `RuntimeError`
raises of the source; on success the serialized cache is written back and the
access token returned. -/
def get_token (_cacheLoad : Option (Option String))
    (silentResult : Option (List (String × String)))
    (flow : List (String × String))
    (deviceResult : List (String × String))
    (serializedCache : String) : Except String (String × String) :=
  let result : Option (List (String × String)) :=
    if falsyDict silentResult then
      if (flow.lookup "user_code").isNone then none else some deviceResult
    else silentResult
  match result with
  | none => Except.error "Device flow failed"
  | some r =>
    match r.lookup "access_token" with
    | none => Except.error "Auth failed"
    | some tok => Except.ok (tok, serializedCache)

/-- Success test for an `Except` result. -/
def exceptOk {ε α : Type} : Except ε α → Bool
  | Except.ok _ => true
  | Except.error _ => false

/-- Cache content written on success, `none` on failure. -/
def resCacheOf : Except String (String × String) → Option String
  | Except.ok p => some p.2
  | Except.error _ => none

/-- Fixture: a message that does not qualify. -/
def plainMsg : Msg := ⟨none, none, none, none, some "hello", some "world", none⟩

/-- Fixture: a qualifying message (action term "change", target phrase
"billing address"). -/
def scamMsg : Msg :=
  ⟨some "m1", some "im1", some "a@b.c", some "t1",
   some "Please change our billing address", some "", some "w1"⟩

/-- Fixture: a second qualifying message (action term "update", target phrase
"bank details"). -/
def scamMsg2 : Msg :=
  ⟨some "m2", some "im2", some "d@e.f", some "t2",
   some "update our bank details", some "", some "w2"⟩

/-- Fixture: a Match Record whose sender is absent (`None`). -/
def recNoSender : MatchRecord :=
  ⟨some "id1", some "im1", none, some "2026-01-01", "subj", some "link"⟩

/-- Fixture: the same Match Record with the sender present but empty. -/
def recEmptySender : MatchRecord :=
  ⟨some "id1", some "im1", some "", some "2026-01-01", "subj", some "link"⟩

/-- Fixture: a Match Record whose fields force CSV quoting. -/
def recQuoted : MatchRecord :=
  ⟨some "i,d", none, some "x", none, String.mk ['s', quoteChar, 'u'], none⟩

/-- Fixture: initial fetch state with the source's URL, parameters and
headers. -/
def st0 : ReqState :=
  { url := base_url, params := some (initParams "2026-10-01T00:00:00Z")
    headers := initHeaders "tok", first := true, totalEst := none }

/-- Fixture: a middle page response carrying a continuation link. -/
def respMid : HttpResp :=
  { status := 200, retryAfter := none, value := [plainMsg]
    odataCount := some 2, nextLink := some "L2" }

/-- Fixture: a last page response with no continuation link. -/
def respLast : HttpResp :=
  { status := 200, retryAfter := none, value := [scamMsg]
    odataCount := none, nextLink := none }

/-- Fixture: a rate-limit response advertising a 7 second wait. -/
def resp429 : HttpResp :=
  { status := 429, retryAfter := some "7", value := [], odataCount := none, nextLink := none }

/-- Fixture: a rate-limit response whose Retry-After header is an HTTP-date. -/
def resp429Date : HttpResp :=
  { status := 429, retryAfter := some "Fri, 31 Dec 1999 23:59:59 GMT"
    value := [], odataCount := none, nextLink := none }

theorem occursAt_decomp {t s : List Char} {i : Nat} (h : occursAt t s i = true) :
    s = s.take i ++ t ++ s.drop (i + t.length) := by
  have h1 : (s.drop i).take t.length = t := by
    simpa [occursAt] using h
  have h2 : s.drop i = t ++ s.drop (i + t.length) := by
    have h3 := List.take_append_drop t.length (s.drop i)
    rw [h1, List.drop_drop] at h3
    exact h3.symm
  calc s = s.take i ++ s.drop i := (List.take_append_drop i s).symm
    _ = s.take i ++ (t ++ s.drop (i + t.length)) := by rw [h2]
    _ = s.take i ++ t ++ s.drop (i + t.length) := (List.append_assoc _ _ _).symm

theorem occursAt_append (t l r : List Char) : occursAt t (l ++ t ++ r) l.length = true := by
  have h : ((l ++ (t ++ r)).drop l.length).take t.length = t := by
    rw [List.drop_left, List.take_left]
  simp only [occursAt, List.append_assoc, h, beq_self_eq_true]

theorem phraseFound_iff (t s : List Char) : phraseFound t s = true ↔ SubstrIn t s := by
  constructor
  · intro h
    simp only [phraseFound, List.any_eq_true, List.mem_range] at h
    obtain ⟨i, _, hocc⟩ := h
    exact ⟨s.take i, s.drop (i + t.length), occursAt_decomp hocc⟩
  · rintro ⟨l, r, rfl⟩
    simp only [phraseFound, List.any_eq_true, List.mem_range]
    refine ⟨l.length, ?_, occursAt_append t l r⟩
    simp only [List.length_append]
    omega

theorem take_getLast? (s : List Char) (i : Nat) (hi : i ≤ s.length) (h0 : i ≠ 0) :
    (s.take i).getLast? = s[i - 1]? := by
  rw [List.getLast?_eq_getElem?]
  have hlen : (s.take i).length = i := by
    rw [List.length_take]
    omega
  rw [hlen, List.getElem?_take, if_pos (by omega : i - 1 < i)]

theorem wordFound_iff (t s : List Char) : wordFound t s = true ↔ WordIn t s := by
  constructor
  · intro h
    simp only [wordFound, List.any_eq_true, List.mem_range] at h
    obtain ⟨i, hi, hw⟩ := h
    simp only [wordAt, Bool.and_eq_true] at hw
    obtain ⟨⟨hocc, hleft⟩, hright⟩ := hw
    refine ⟨s.take i, s.drop (i + t.length), occursAt_decomp hocc, ?_, ?_⟩
    · intro c hc
      have h0 : i ≠ 0 := by
        intro h0
        rw [h0, List.take_zero] at hc
        exact Option.noConfusion hc
      rw [if_neg h0] at hleft
      rw [take_getLast? s i (by omega) h0] at hc
      rw [hc] at hleft
      simpa [boundaryOk] using hleft
    · intro c hc
      rw [List.head?_drop] at hc
      rw [hc] at hright
      simpa [boundaryOk] using hright
  · rintro ⟨l, r, rfl, hend, hstart⟩
    simp only [wordFound, List.any_eq_true, List.mem_range]
    refine ⟨l.length, ?_, ?_⟩
    · simp only [List.length_append]
      omega
    · simp only [wordAt, Bool.and_eq_true]
      refine ⟨⟨occursAt_append t l r, ?_⟩, ?_⟩
      · by_cases h0 : l.length = 0
        · rw [if_pos h0]
          rfl
        · rw [if_neg h0]
          have hl : l ≠ [] := by
            intro he
            rw [he] at h0
            exact h0 rfl
          have hidx : (l ++ t ++ r)[l.length - 1]? = l[l.length - 1]? := by
            rw [List.append_assoc, List.getElem?_append]
            exact if_pos (by omega)
          rw [hidx, ← List.getLast?_eq_getElem?]
          cases hlast : l.getLast? with
          | none => exact absurd (List.getLast?_eq_none_iff.mp hlast) hl
          | some c => simpa [boundaryOk] using hend c hlast
      · have hidx : (l ++ t ++ r)[l.length + t.length]? = r[0]? := by
          have h2 : ((l ++ t) ++ r)[l.length + t.length]?
              = r[l.length + t.length - (l ++ t).length]? :=
            List.getElem?_append_right (by simp)
          have hlen : l.length + t.length - (l ++ t).length = 0 := by simp
          rw [h2, hlen]
        rw [hidx]
        cases hr : r with
        | nil => rfl
        | cons c r2 =>
          have hw : isWordChar c = false := hstart c (by rw [hr]; rfl)
          simp [boundaryOk, hw]

theorem termsHit_iff (single phrase : List String) (text : List Char) :
    termsHit single phrase text = true ↔
      ((∃ t ∈ single, WordIn (lowerChars t) text)
        ∨ (∃ p ∈ phrase, SubstrIn (lowerChars p) text)) := by
  simp [termsHit, List.any_eq_true, wordFound_iff, phraseFound_iff]

/-- C1: `qualifies` holds exactly when the combined subject-newline-preview
text contains at least one action term and at least one target term, with
word-boundary semantics for single words, literal substring semantics for
phrases, and case-insensitive matching throughout; in particular "exchange"
does not activate the action term "change".  (Proved of the intended
classifier: the source itself crashes with `NameError` because
`CHANGE_PHRASE` is undefined, see `CHANGE_PHRASE`.) -/
theorem claim_C1_qualifies :
    (∀ subject preview, qualifies subject preview = true ↔
      ActionHit (blobText subject preview) ∧ TargetHit (blobText subject preview))
    ∧ qualifies (some "my exchange rate") (some "") = false
    ∧ qualifies (some "Please change our billing address") (some "") = true
    ∧ qualifies (some "change of plans") (some "see you soon") = false := by
  refine ⟨fun subject preview => ?_, by decide, by decide, by decide⟩
  simp [qualifies, patChangeHits, patAddrBankHits, Bool.and_eq_true, termsHit_iff,
    ActionHit, TargetHit]

theorem processMsg_scanned (m : Msg) (st : ScanState) :
    (processMsg m st).scanned = st.scanned + 1 := rfl

theorem processMsg_matchList (m : Msg) (st : ScanState) :
    (processMsg m st).matchList = st.matchList ++ (if qualMsg m then [recOf m] else []) := rfl

theorem scanItems_scanned_le (mS mR : Int) (items : List Msg) :
    ∀ st : ScanState, st.scanned ≤ (scanItems mS mR items st).scanned := by
  induction items with
  | nil => intro st; exact Nat.le_refl _
  | cons m rest ih =>
    intro st
    simp only [scanItems]
    by_cases h : capReached mS mR (processMsg m st) = true
    · rw [if_pos h, processMsg_scanned]
      exact Nat.le_succ _
    · rw [if_neg h]
      exact Nat.le_trans (Nat.le_succ _) (ih (processMsg m st))

theorem scanPages_scanned_le (mS mR : Int) (pages : List (List Msg)) :
    ∀ st : ScanState, st.scanned ≤ (scanPages mS mR pages st).scanned := by
  induction pages with
  | nil => intro st; exact Nat.le_refl _
  | cons p rest ih =>
    intro st
    simp only [scanPages]
    by_cases h : capReached mS mR (scanItems mS mR p st) = true
    · rw [if_pos h]
      exact scanItems_scanned_le mS mR p st
    · rw [if_neg h]
      exact Nat.le_trans (scanItems_scanned_le mS mR p st) (ih _)

theorem scanItems_spec (mS mR : Int) (items : List Msg) :
    ∀ st : ScanState, ∃ k, k ≤ items.length
      ∧ (scanItems mS mR items st).scanned = st.scanned + k
      ∧ (scanItems mS mR items st).matchList
          = st.matchList ++ ((items.take k).filter qualMsg).map recOf
      ∧ (capReached mS mR (scanItems mS mR items st) = false → k = items.length) := by
  induction items with
  | nil =>
    intro st
    exact ⟨0, Nat.le_refl _, rfl, by simp [scanItems], fun _ => rfl⟩
  | cons m rest ih =>
    intro st
    by_cases h : capReached mS mR (processMsg m st) = true
    · refine ⟨1, by simp, ?_, ?_, ?_⟩
      · simp only [scanItems, if_pos h, processMsg_scanned]
      · simp only [scanItems, if_pos h, processMsg_matchList, List.take_succ_cons,
          List.take_zero]
        cases hq : qualMsg m <;> simp [List.filter, hq]
      · intro hc
        simp only [scanItems, if_pos h] at hc
        rw [h] at hc
        exact Bool.noConfusion hc
    · obtain ⟨k, hk, hs, hm, hexit⟩ := ih (processMsg m st)
      refine ⟨k + 1, by simpa using Nat.succ_le_succ hk, ?_, ?_, ?_⟩
      · simp only [scanItems, if_neg h, hs, processMsg_scanned]
        omega
      · simp only [scanItems, if_neg h, hm, processMsg_matchList, List.take_succ_cons]
        cases hq : qualMsg m <;> simp [List.filter, hq, List.append_assoc]
      · intro hc
        simp only [scanItems, if_neg h] at hc
        rw [hexit hc]
        rfl

theorem scanPages_spec (mS mR : Int) (pages : List (List Msg)) :
    ∀ st : ScanState, ∃ k, k ≤ pages.flatten.length
      ∧ (scanPages mS mR pages st).scanned = st.scanned + k
      ∧ (scanPages mS mR pages st).matchList
          = st.matchList ++ ((pages.flatten.take k).filter qualMsg).map recOf := by
  induction pages with
  | nil =>
    intro st
    exact ⟨0, Nat.le_refl _, rfl, by simp [scanPages]⟩
  | cons p rest ih =>
    intro st
    obtain ⟨k1, hk1, hs1, hm1, hexit1⟩ := scanItems_spec mS mR p st
    by_cases h : capReached mS mR (scanItems mS mR p st) = true
    · refine ⟨k1, ?_, ?_, ?_⟩
      · simp only [List.flatten_cons, List.length_append]
        omega
      · simp only [scanPages, if_pos h, hs1]
      · simp only [scanPages, if_pos h, hm1, List.flatten_cons,
          List.take_append_of_le_length hk1]
    · have hk1e : k1 = p.length := hexit1 (Bool.eq_false_iff.mpr h)
      obtain ⟨k2, hk2, hs2, hm2⟩ := ih (scanItems mS mR p st)
      refine ⟨k1 + k2, ?_, ?_, ?_⟩
      · simp only [List.flatten_cons, List.length_append]
        omega
      · simp only [scanPages, if_neg h, hs2, hs1]
        omega
      · simp only [scanPages, if_neg h, hm2, hm1, List.flatten_cons, hk1e,
          List.take_append, List.take_length, List.filter_append, List.map_append,
          List.append_assoc]

theorem capReached_false_bounds {mS mR : Int} {st : ScanState}
    (h : capReached mS mR st = false) :
    (st.scanned : Int) < mS ∧ (st.matchList.length : Int) < mR := by
  simp only [capReached, Bool.or_eq_false_iff, decide_eq_false_iff_not, not_le] at h
  exact h

theorem scanItems_caps (mS mR : Int) (items : List Msg) :
    ∀ st : ScanState, (st.scanned : Int) < mS → ((st.matchList.length : Int) < mR) →
      ((scanItems mS mR items st).scanned : Int) ≤ mS
        ∧ ((scanItems mS mR items st).matchList.length : Int) ≤ mR := by
  induction items with
  | nil => intro st h1 h2; exact ⟨le_of_lt h1, le_of_lt h2⟩
  | cons m rest ih =>
    intro st h1 h2
    have hsc : (processMsg m st).scanned = st.scanned + 1 := rfl
    have hlen : (processMsg m st).matchList.length ≤ st.matchList.length + 1 := by
      rw [processMsg_matchList, List.length_append]
      cases qualMsg m <;> simp
    by_cases h : capReached mS mR (processMsg m st) = true
    · simp only [scanItems, if_pos h, hsc]
      constructor
      · push_cast
        omega
      · omega
    · simp only [scanItems, if_neg h]
      obtain ⟨hb1, hb2⟩ := capReached_false_bounds (Bool.eq_false_iff.mpr h)
      exact ih (processMsg m st) hb1 hb2

theorem scanPages_caps (mS mR : Int) (pages : List (List Msg)) :
    ∀ st : ScanState, (st.scanned : Int) < mS → ((st.matchList.length : Int) < mR) →
      ((scanPages mS mR pages st).scanned : Int) ≤ mS
        ∧ ((scanPages mS mR pages st).matchList.length : Int) ≤ mR := by
  induction pages with
  | nil => intro st h1 h2; exact ⟨le_of_lt h1, le_of_lt h2⟩
  | cons p rest ih =>
    intro st h1 h2
    by_cases h : capReached mS mR (scanItems mS mR p st) = true
    · simp only [scanPages, if_pos h]
      exact scanItems_caps mS mR p st h1 h2
    · simp only [scanPages, if_neg h]
      obtain ⟨hb1, hb2⟩ := capReached_false_bounds (Bool.eq_false_iff.mpr h)
      exact ih (scanItems mS mR p st) hb1 hb2

/-- C2: with positive caps the scan never exceeds them, and the two documented
scenarios hold exactly: with MAX_SCAN = 3 over one page of 10 non-matching
messages exactly 3 are scanned, and with MAX_RESULTS = 1 over a page whose
first two messages both match the scan stops after message 1 with exactly one
recorded match (the cap condition is checked after every item and again after
every page, which the `scanItems`/`scanPages` shapes encode). -/
theorem claim_C2_caps (pages : List (List Msg)) (mS mR : Int)
    (h1 : 1 ≤ mS) (h2 : 1 ≤ mR) :
    (((runScan mS mR pages).scanned : Int) ≤ mS
      ∧ ((runScan mS mR pages).matchList.length : Int) ≤ mR)
    ∧ runScan 3 100 [List.replicate 10 plainMsg] = { scanned := 3, matchList := [] }
    ∧ runScan 100 1 [[scamMsg, scamMsg2]] = { scanned := 1, matchList := [recOf scamMsg] } := by
  refine ⟨?_, by decide, by decide⟩
  exact scanPages_caps mS mR pages { scanned := 0, matchList := [] }
    (by simpa using h1) (by simpa using h2)

theorem claim_C2_witness :
    (((runScan 3 7 [[scamMsg, scamMsg2, plainMsg, plainMsg]]).scanned : Int) ≤ 3
      ∧ ((runScan 3 7 [[scamMsg, scamMsg2, plainMsg, plainMsg]]).matchList.length : Int) ≤ 7)
    ∧ runScan 3 100 [List.replicate 10 plainMsg] = { scanned := 3, matchList := [] }
    ∧ runScan 100 1 [[scamMsg, scamMsg2]] = { scanned := 1, matchList := [recOf scamMsg] } :=
  claim_C2_caps [[scamMsg, scamMsg2, plainMsg, plainMsg]] 3 7 (by decide) (by decide)

/-- C7: the scanned counter equals the number of messages consumed (it rises
by exactly one per message), and the collected matches are exactly the
qualifying messages of the consumed prefix, in delivery order — hence an
order-preserving sublist of the qualifying messages of the whole fetched
stream; match records are only ever appended and never mutated. -/
theorem claim_C7_order (mS mR : Int) (pages : List (List Msg)) :
    ∃ k, k ≤ pages.flatten.length
      ∧ (runScan mS mR pages).scanned = k
      ∧ (runScan mS mR pages).matchList
          = ((pages.flatten.take k).filter qualMsg).map recOf
      ∧ (runScan mS mR pages).matchList.Sublist
          ((pages.flatten.filter qualMsg).map recOf) := by
  obtain ⟨k, hk, hs, hm⟩ := scanPages_spec mS mR pages { scanned := 0, matchList := [] }
  have hm2 : (runScan mS mR pages).matchList
      = ((pages.flatten.take k).filter qualMsg).map recOf := by
    simpa [runScan] using hm
  refine ⟨k, hk, by simpa [runScan] using hs, hm2, ?_⟩
  rw [hm2]
  exact ((List.take_sublist k pages.flatten).filter qualMsg).map recOf

/-- C9: the caps are only consulted after a message is processed: with a
non-empty first page at least one message is always scanned; with a
non-positive cap the first message is still scanned (and recorded when it
qualifies), so the final counters can exceed the caps; with positive caps the
final counters respect the caps. -/
theorem claim_C9_eager (mS mR : Int) (m : Msg) (p : List Msg) (rest : List (List Msg)) :
    1 ≤ (runScan mS mR ((m :: p) :: rest)).scanned
    ∧ ((mS ≤ 0 ∨ mR ≤ 0) → runScan mS mR ((m :: p) :: rest)
        = { scanned := 1, matchList := if qualMsg m then [recOf m] else [] })
    ∧ (1 ≤ mS → 1 ≤ mR →
        ((runScan mS mR ((m :: p) :: rest)).scanned : Int) ≤ mS
          ∧ ((runScan mS mR ((m :: p) :: rest)).matchList.length : Int) ≤ mR) := by
  refine ⟨?_, ?_, fun h1 h2 => scanPages_caps mS mR _ _ (by simpa using h1) (by simpa using h2)⟩
  · have hp : (processMsg m { scanned := 0, matchList := [] }).scanned = 1 := rfl
    have h1 : 1 ≤ (scanItems mS mR (m :: p) { scanned := 0, matchList := [] }).scanned := by
      simp only [scanItems]
      by_cases h : capReached mS mR (processMsg m { scanned := 0, matchList := [] }) = true
      · rw [if_pos h, hp]
      · rw [if_neg h]
        exact le_trans (le_of_eq hp.symm) (scanItems_scanned_le mS mR p _)
    calc 1 ≤ (scanItems mS mR (m :: p) { scanned := 0, matchList := [] }).scanned := h1
      _ ≤ (runScan mS mR ((m :: p) :: rest)).scanned := by
        simp only [runScan, scanPages]
        by_cases h : capReached mS mR (scanItems mS mR (m :: p)
            { scanned := 0, matchList := [] }) = true
        · rw [if_pos h]
        · rw [if_neg h]
          exact scanPages_scanned_le mS mR rest _
  · intro hcap
    have hst : processMsg m { scanned := 0, matchList := [] }
        = { scanned := 1, matchList := if qualMsg m then [recOf m] else [] } := by
      rw [ScanState.mk.injEq]
      exact ⟨rfl, by rw [processMsg_matchList]; simp⟩
    have hc : capReached mS mR
        { scanned := 1, matchList := if qualMsg m then [recOf m] else [] } = true := by
      simp only [capReached, Bool.or_eq_true, decide_eq_true_iff]
      rcases hcap with h | h
      · left
        omega
      · right
        have hlen : (0 : Int) ≤ ((if qualMsg m then [recOf m] else []).length : Int) := by
          positivity
        omega
    have hitems : scanItems mS mR (m :: p) { scanned := 0, matchList := [] }
        = { scanned := 1, matchList := if qualMsg m then [recOf m] else [] } := by
      simp [scanItems, hst, hc]
    simp [runScan, scanPages, hitems, hc]

theorem claim_C9_witness :
    1 ≤ (runScan 0 0 [[scamMsg]]).scanned
    ∧ runScan 0 0 [[scamMsg]] = { scanned := 1, matchList := [recOf scamMsg] } := by
  have h := claim_C9_eager 0 0 scamMsg [] []
  refine ⟨h.1, ?_⟩
  have h2 := h.2.1 (Or.inl (by decide))
  rw [h2]
  have hq : qualMsg scamMsg = true := by decide
  rw [hq]
  simp

theorem runFetch_head (st : ReqState) (r : HttpResp) (rest : List HttpResp) :
    (runFetch st (r :: rest)).1.requests.head? = some st.req := by
  by_cases h429 : r.status = 429 <;> by_cases h400 : 400 ≤ r.status <;>
    cases hp : pyInt (r.retryAfter.getD "5") <;> cases hl : r.nextLink <;>
    simp [runFetch, h429, h400, hp, hl]

/-- C4: a 429 response makes the fetcher sleep for the parsed Retry-After
duration (5 when the header is absent) and retry with the loop state
unchanged, so the retried request is identical (same URL, parameters and
headers) and nothing is yielded or counted for the rate-limited attempt; one
429 followed by success therefore causes exactly one retry. -/
theorem claim_C4_retry (st : ReqState) (r : HttpResp) (rest : List HttpResp) (k : Int)
    (h429 : r.status = 429) (hra : pyInt (r.retryAfter.getD "5") = some k) :
    runFetch st (r :: rest)
      = ({ requests := st.req :: (runFetch st rest).1.requests
           sleeps := k :: (runFetch st rest).1.sleeps
           pages := (runFetch st rest).1.pages }, (runFetch st rest).2)
    ∧ (r.retryAfter = none → k = 5)
    ∧ (∀ r2 rest2, rest = r2 :: rest2 →
        (runFetch st (r :: rest)).1.requests.take 2 = [st.req, st.req]) := by
  have hmain : runFetch st (r :: rest)
      = ({ requests := st.req :: (runFetch st rest).1.requests
           sleeps := k :: (runFetch st rest).1.sleeps
           pages := (runFetch st rest).1.pages }, (runFetch st rest).2) := by
    simp [runFetch, h429, hra]
  refine ⟨hmain, ?_, ?_⟩
  · intro hnone
    rw [hnone] at hra
    have h5 : pyInt "5" = some 5 := by decide
    rw [show (none : Option String).getD "5" = "5" from rfl, h5] at hra
    exact (Option.some.inj hra).symm
  · intro r2 rest2 hrest
    subst hrest
    have hh := runFetch_head st r2 rest2
    rw [hmain]
    cases hreq : (runFetch st (r2 :: rest2)).1.requests with
    | nil =>
      rw [hreq] at hh
      exact absurd hh (by simp)
    | cons a t =>
      rw [hreq] at hh
      have ha : a = st.req := by simpa using hh
      simp [ha]

theorem claim_C4_witness :
    runFetch st0 [resp429, respLast]
      = ({ requests := [st0.req, st0.req], sleeps := [7]
           pages := [([scamMsg], none)] }, FetchEnd.done) := by
  have h := claim_C4_retry st0 resp429 [respLast] 7 rfl (by decide)
  rw [h.1]
  decide

/-- C10: a 429 response whose Retry-After header is present but not an integer
string (for example an HTTP-date) makes the fetcher raise the uncaught
conversion error instead of sleeping and retrying: no sleep, no retried
request, the run aborts through the top-level handler of `main`. -/
theorem claim_C10_badRetryAfter (st : ReqState) (r : HttpResp) (rest : List HttpResp)
    (s : String) (h429 : r.status = 429) (hs : r.retryAfter = some s)
    (hbad : pyInt s = none) :
    runFetch st (r :: rest)
      = ({ requests := [st.req], sleeps := [], pages := [] }, FetchEnd.errValue) := by
  simp [runFetch, h429, hs, hbad]

theorem claim_C10_witness :
    runFetch st0 [resp429Date, respLast]
      = ({ requests := [st0.req], sleeps := [], pages := [] }, FetchEnd.errValue) :=
  claim_C10_badRetryAfter st0 resp429Date [respLast]
    "Fri, 31 Dec 1999 23:59:59 GMT" rfl rfl (by decide)

theorem runFetch_okChain : ∀ (script : List HttpResp) (st : ReqState),
    okChain script = true →
      (runFetch st script).2 = FetchEnd.done
      ∧ (runFetch st script).1.pages.map Prod.fst = script.map HttpResp.value
      ∧ (runFetch st script).1.requests.length = script.length
      ∧ (runFetch st script).1.requests.head? = some st.req
      ∧ (∀ q ∈ (runFetch st script).1.requests.tail,
          q.params = none ∧ q.headers = st.headers)
      ∧ (runFetch st script).1.requests.map Request.url
          = st.url :: script.dropLast.map (fun r => r.nextLink.getD "") := by
  intro script
  induction script with
  | nil => intro st h; exact absurd h (by simp [okChain])
  | cons r rest ih =>
    intro st h
    cases rest with
    | nil =>
      simp only [okChain, okResp, Bool.and_eq_true, decide_eq_true_iff,
        Option.isNone_iff_eq_none] at h
      obtain ⟨⟨h429, h400⟩, hnone⟩ := h
      simp [runFetch, h429, not_le.mpr h400, hnone, ReqState.req]
    | cons s rest2 =>
      simp only [okChain, okResp, Bool.and_eq_true, decide_eq_true_iff] at h
      obtain ⟨⟨⟨h429, h400⟩, hsome⟩, hchain⟩ := h
      obtain ⟨link, hl⟩ := Option.isSome_iff_exists.mp hsome
      obtain ⟨ih1, ih2, ih3, ih4, ih5, ih6⟩ := ih (nextState st r link) hchain
      have hrun : runFetch st (r :: s :: rest2)
          = ({ requests := st.req :: (runFetch (nextState st r link) (s :: rest2)).1.requests
               sleeps := (runFetch (nextState st r link) (s :: rest2)).1.sleeps
               pages := (r.value, if st.first then r.odataCount else st.totalEst)
                 :: (runFetch (nextState st r link) (s :: rest2)).1.pages },
             (runFetch (nextState st r link) (s :: rest2)).2) := by
        simp [runFetch, h429, not_le.mpr h400, hl, nextState]
      rw [hrun]
      refine ⟨ih1, by simpa using ih2, by simpa using ih3, rfl, ?_, ?_⟩
      · intro q hq
        cases hreq : (runFetch (nextState st r link) (s :: rest2)).1.requests with
        | nil =>
          rw [hreq] at hq
          exact absurd hq (by simp)
        | cons a t =>
          rw [hreq] at hq ih4 ih5
          have ha : a = (nextState st r link).req := by simpa using ih4
          simp only [List.tail_cons] at hq ⊢
          rcases List.mem_cons.mp hq with hqa | hqt
          · rw [hqa, ha]
            exact ⟨rfl, rfl⟩
          · have := ih5 q hqt
            simpa [nextState] using this
      · have hdrop : (r :: s :: rest2).dropLast = r :: (s :: rest2).dropLast := rfl
        rw [List.map_cons, ih6, hdrop, List.map_cons, hl]
        rfl

theorem runFetch_allLinked : ∀ (script : List HttpResp) (st : ReqState),
    allLinked script = true → (runFetch st script).2 = FetchEnd.pending := by
  intro script
  induction script with
  | nil => intro st _; rfl
  | cons r rest ih =>
    intro st h
    simp only [allLinked, List.all_cons, Bool.and_eq_true] at h
    obtain ⟨hr, hrest⟩ := h
    simp only [okResp, Bool.and_eq_true, decide_eq_true_iff] at hr
    obtain ⟨⟨h429, h400⟩, hsome⟩ := hr
    obtain ⟨link, hl⟩ := Option.isSome_iff_exists.mp hsome
    have hpend := ih (nextState st r link) hrest
    have hrun : (runFetch st (r :: rest)).2 = (runFetch (nextState st r link) rest).2 := by
      simp [runFetch, h429, not_le.mpr h400, hl, nextState]
    rw [hrun, hpend]

/-- C3: against a finite collection the page sequence ends exactly when a
response carries no continuation link — it then yields every page exactly once
in server order, and every follow-up request uses the advertised link verbatim
with no query parameters re-sent and the same headers; if every response keeps
advertising a link the loop keeps going (`pending` on script exhaustion). -/
theorem claim_C3_pagination (st : ReqState) (script : List HttpResp) :
    (okChain script = true →
      (runFetch st script).2 = FetchEnd.done
      ∧ (runFetch st script).1.pages.map Prod.fst = script.map HttpResp.value
      ∧ (runFetch st script).1.requests.length = script.length
      ∧ (runFetch st script).1.requests.head? = some st.req
      ∧ (∀ q ∈ (runFetch st script).1.requests.tail,
          q.params = none ∧ q.headers = st.headers)
      ∧ (runFetch st script).1.requests.map Request.url
          = st.url :: script.dropLast.map (fun r => r.nextLink.getD ""))
    ∧ (allLinked script = true → (runFetch st script).2 = FetchEnd.pending) :=
  ⟨runFetch_okChain script st, runFetch_allLinked script st⟩

theorem claim_C3_witness :
    (runFetch st0 [respMid, respLast]).2 = FetchEnd.done
    ∧ (runFetch st0 [respMid, respLast]).1.pages.map Prod.fst = [[plainMsg], [scamMsg]]
    ∧ (runFetch st0 [respMid, respLast]).1.requests.map Request.url = [st0.url, "L2"]
    ∧ (runFetch st0 [respMid, respMid]).2 = FetchEnd.pending := by
  have h := (claim_C3_pagination st0 [respMid, respLast]).1 (by decide)
  have hp := (claim_C3_pagination st0 [respMid, respMid]).2 (by decide)
  refine ⟨h.1, ?_, ?_, hp⟩
  · rw [h.2.1]
    rfl
  · rw [h.2.2.2.2.2]
    rfl

theorem comma_ne_quote : ¬((',' : Char) = quoteChar) := by decide

theorem cr_ne_quote : ¬(('\r' : Char) = quoteChar) := by decide

theorem cr_ne_comma : ¬(('\r' : Char) = ',') := by decide

theorem parse_safe (f : List Char)
    (hf : ∀ c ∈ f, ¬(c = ',' ∨ c = quoteChar ∨ c = '\r' ∨ c = '\n')) :
    ∀ fld row s, parseAux CsvMode.normal fld row (f ++ s)
      = parseAux CsvMode.normal (f.reverse ++ fld) row s := by
  induction f with
  | nil => intro fld row s; simp
  | cons c f2 ih =>
    intro fld row s
    have hc := hf c (List.mem_cons_self c f2)
    push_neg at hc
    obtain ⟨h1, h2, h3, _⟩ := hc
    have hstep : parseAux CsvMode.normal fld row ((c :: f2) ++ s)
        = parseAux CsvMode.normal (c :: fld) row (f2 ++ s) := by
      simp [parseAux, h1, h2, h3]
    rw [hstep, ih (fun c hc => hf c (List.mem_cons_of_mem _ hc)) (c :: fld) row s]
    congr 1
    simp [List.reverse_cons, List.append_assoc]

theorem parse_quoted (f : List Char) :
    ∀ fld row s, parseAux CsvMode.quoted fld row (dupQuotes f ++ s)
      = parseAux CsvMode.quoted (f.reverse ++ fld) row s := by
  induction f with
  | nil => intro fld row s; simp [dupQuotes]
  | cons c f2 ih =>
    intro fld row s
    by_cases hq : c = quoteChar
    · subst hq
      have hstep : parseAux CsvMode.quoted fld row (dupQuotes (quoteChar :: f2) ++ s)
          = parseAux CsvMode.quoted (quoteChar :: fld) row (dupQuotes f2 ++ s) := by
        simp [dupQuotes, parseAux]
      rw [hstep, ih (quoteChar :: fld) row s]
      congr 1
      simp [List.reverse_cons, List.append_assoc]
    · have hstep : parseAux CsvMode.quoted fld row (dupQuotes (c :: f2) ++ s)
          = parseAux CsvMode.quoted (c :: fld) row (dupQuotes f2 ++ s) := by
        simp [dupQuotes, parseAux, hq]
      rw [hstep, ih (c :: fld) row s]
      congr 1
      simp [List.reverse_cons, List.append_assoc]

theorem quote_ne_comma : ¬(quoteChar = ',') := by decide

theorem parse_escField (f : List Char) (row : List (List Char)) (s : List Char)
    (hs : s = [] ∨ s.head? = some ',' ∨ s.head? = some '\r') :
    parseAux CsvMode.normal [] row (escField f ++ s)
      = parseAux CsvMode.normal f.reverse row s := by
  by_cases hnq : needsQuote f = true
  · have hshape : escField f ++ s = quoteChar :: (dupQuotes f ++ (quoteChar :: s)) := by
      simp [escField, if_pos hnq, List.append_assoc]
    rw [hshape]
    have h1 : parseAux CsvMode.normal [] row (quoteChar :: (dupQuotes f ++ (quoteChar :: s)))
        = parseAux CsvMode.quoted [] row (dupQuotes f ++ (quoteChar :: s)) := by
      simp [parseAux, quote_ne_comma]
    rw [h1, parse_quoted f [] row (quoteChar :: s), List.append_nil]
    have h2 : parseAux CsvMode.quoted f.reverse row (quoteChar :: s)
        = parseAux CsvMode.afterQuote f.reverse row s := by
      simp [parseAux]
    rw [h2]
    have hf : f ≠ [] := by
      intro he
      rw [he] at hnq
      simp [needsQuote] at hnq
    rcases hs with rfl | hs | hs
    · have hrev : f.reverse.isEmpty = false := by
        cases hr : f.reverse with
        | nil => exact absurd (by simpa using hr) hf
        | cons a t => rfl
      simp [parseAux, hrev]
    · obtain ⟨s2, rfl⟩ : ∃ s2, s = ',' :: s2 := by
        cases s with
        | nil => simp at hs
        | cons a t =>
          simp only [List.head?] at hs
          exact ⟨t, by rw [Option.some.inj hs]⟩
      have hl : parseAux CsvMode.afterQuote f.reverse row (',' :: s2)
          = parseAux CsvMode.normal [] (f.reverse.reverse :: row) s2 := by
        simp [parseAux, comma_ne_quote]
      have hr2 : parseAux CsvMode.normal f.reverse row (',' :: s2)
          = parseAux CsvMode.normal [] (f.reverse.reverse :: row) s2 := by
        simp [parseAux]
      rw [hl, hr2]
    · obtain ⟨s2, rfl⟩ : ∃ s2, s = '\r' :: s2 := by
        cases s with
        | nil => simp at hs
        | cons a t =>
          simp only [List.head?] at hs
          exact ⟨t, by rw [Option.some.inj hs]⟩
      have hl : parseAux CsvMode.afterQuote f.reverse row ('\r' :: s2)
          = parseAux CsvMode.afterCR f.reverse row s2 := by
        simp [parseAux, cr_ne_quote, cr_ne_comma]
      have hr2 : parseAux CsvMode.normal f.reverse row ('\r' :: s2)
          = parseAux CsvMode.afterCR f.reverse row s2 := by
        simp [parseAux, cr_ne_quote, cr_ne_comma]
      rw [hl, hr2]
  · have hnq2 : needsQuote f = false := Bool.eq_false_iff.mpr hnq
    have hsafe : ∀ c ∈ f, ¬(c = ',' ∨ c = quoteChar ∨ c = '\r' ∨ c = '\n') := by
      intro c hc hcon
      have hpred : (c = ',' || c = quoteChar || c = '\r' || c = '\n') = true := by
        rcases hcon with rfl | rfl | rfl | rfl <;> simp
      have hq : needsQuote f = true := by
        simp only [needsQuote, List.any_eq_true]
        exact ⟨c, hc, hpred⟩
      rw [hq] at hnq2
      exact Bool.noConfusion hnq2
    rw [show escField f = f from by simp [escField, hnq2], parse_safe f hsafe [] row s,
      List.append_nil]

theorem parse_renderRow : ∀ (fs : List (List Char)), fs ≠ [] → ∀ row s,
    parseAux CsvMode.normal [] row (renderRow fs ++ s)
      = (fs.reverse ++ row).reverse :: parseAux CsvMode.normal [] [] s := by
  intro fs
  induction fs with
  | nil => intro h; exact absurd rfl h
  | cons f rest ih =>
    intro _ row s
    cases rest with
    | nil =>
      have h1 : renderRow [f] ++ s = escField f ++ ('\r' :: '\n' :: s) := by
        simp [renderRow, renderFields, List.append_assoc]
      rw [h1, parse_escField f row ('\r' :: '\n' :: s) (Or.inr (Or.inr rfl))]
      have h3 : parseAux CsvMode.normal f.reverse row ('\r' :: '\n' :: s)
          = (f.reverse.reverse :: row).reverse :: parseAux CsvMode.normal [] [] s := by
        simp [parseAux, cr_ne_comma, cr_ne_quote]
      rw [h3]
      simp
    | cons g rest2 =>
      have h1 : renderRow (f :: g :: rest2) ++ s
          = escField f ++ (',' :: (renderRow (g :: rest2) ++ s)) := by
        simp [renderRow, renderFields, List.append_assoc]
      rw [h1, parse_escField f row (',' :: (renderRow (g :: rest2) ++ s))
        (Or.inr (Or.inl rfl))]
      have h2 : parseAux CsvMode.normal f.reverse row (',' :: (renderRow (g :: rest2) ++ s))
          = parseAux CsvMode.normal [] (f.reverse.reverse :: row)
              (renderRow (g :: rest2) ++ s) := by
        simp [parseAux]
      rw [h2, List.reverse_reverse, ih (by simp) (f :: row) s]
      congr 2
      simp [List.reverse_cons, List.append_assoc]

theorem parse_renderCsv : ∀ (rows : List (List (List Char))),
    (∀ rw ∈ rows, rw ≠ []) → parseCsv (renderCsv rows) = rows := by
  intro rows
  induction rows with
  | nil => intro _; rfl
  | cons r rest ih =>
    intro hrows
    have h1 : renderCsv (r :: rest) = renderRow r ++ renderCsv rest := rfl
    unfold parseCsv
    rw [h1, parse_renderRow r (hrows r (List.mem_cons_self r rest)) [] (renderCsv rest)]
    have ih2 := ih (fun rw hrw => hrows rw (List.mem_cons_of_mem _ hrw))
    unfold parseCsv at ih2
    rw [ih2]
    simp

/-- C5 counterexample: two different match-record lists produce byte-identical
hits.csv content (a `None` sender and an empty-string sender collide), so
re-parsing the file cannot reconstruct the original Match Records exactly. -/
theorem claim_C5_counterexample :
    csvChars [recNoSender] = csvChars [recEmptySender]
      ∧ recNoSender ≠ recEmptySender := by
  exact ⟨by decide, by decide⟩

/-- C5 (amended): for a run ending with n ≥ 1 matches the written hits.csv has
exactly n + 1 rows — the header with the Match Record field names in
first-seen order followed by one row per match — and re-parsing it
reconstructs the match records up to rendering each absent (`None`) field as
the empty string (exact reconstruction holds whenever every optional field is
present, but `None` and `""` collide, see the counterexample); with zero
matches no file is written and the summary reports zero matches with the scan
count. -/
theorem claim_C5_output (recs : List MatchRecord) (h : recs ≠ []) :
    parseCsv (csvChars recs) = csvRows recs
    ∧ (parseCsv (csvChars recs)).length = recs.length + 1
    ∧ (parseCsv (csvChars recs)).head? = some (headerFields.map String.data)
    ∧ csvOutput recs = some (csvChars recs)
    ∧ csvOutput [] = none
    ∧ (∀ n, summaryLine [] n
        = "\n[DONE] No matches found (scanned " ++ toString n ++ " msgs).") := by
  have hrows : ∀ rw ∈ csvRows recs, rw ≠ [] := by
    intro rw hrw
    simp only [csvRows, List.map_cons, List.mem_cons] at hrw
    rcases hrw with rfl | hrw
    · simp [headerFields]
    · rw [List.map_map] at hrw
      obtain ⟨r, _, rfl⟩ := List.mem_map.mp hrw
      simp [recordFields]
  have hmain : parseCsv (csvChars recs) = csvRows recs := parse_renderCsv _ hrows
  have hne : recs.isEmpty = false := by
    cases recs with
    | nil => exact absurd rfl h
    | cons a t => rfl
  refine ⟨hmain, ?_, ?_, by simp [csvOutput, hne], rfl, fun n => rfl⟩
  · rw [hmain]
    simp [csvRows]
  · rw [hmain]
    simp [csvRows]

theorem claim_C5_witness :
    parseCsv (csvChars [recNoSender, recQuoted]) = csvRows [recNoSender, recQuoted]
    ∧ (parseCsv (csvChars [recNoSender, recQuoted])).length = 3
    ∧ csvOutput [recNoSender, recQuoted] = some (csvChars [recNoSender, recQuoted]) := by
  have h := claim_C5_output [recNoSender, recQuoted] (by simp)
  exact ⟨h.1, h.2.1, h.2.2.2.1⟩

/-- C6: `get_token` treats a missing or corrupt token-cache file as an empty
cache and never fails because of it (the outcome is independent of the
cache-load oracle); it raises an authentication error exactly when the device
flow cannot start (silent acquisition yielded nothing falsy and the flow
response lacks a user code) or when the selected acquisition result carries no
access token; and on every successful acquisition the serialized cache is
written back to the fixed path. -/
theorem claim_C6_token (c1 c2 : Option (Option String))
    (silentResult : Option (List (String × String)))
    (flow deviceResult : List (String × String)) (ser : String) :
    get_token c1 silentResult flow deviceResult ser
      = get_token c2 silentResult flow deviceResult ser
    ∧ (exceptOk (get_token c1 silentResult flow deviceResult ser) = false ↔
        ((falsyDict silentResult = true ∧ flow.lookup "user_code" = none)
          ∨ ((if falsyDict silentResult then deviceResult
              else silentResult.getD []).lookup "access_token" = none
            ∧ ¬(falsyDict silentResult = true ∧ flow.lookup "user_code" = none))))
    ∧ (exceptOk (get_token c1 silentResult flow deviceResult ser) = true →
        resCacheOf (get_token c1 silentResult flow deviceResult ser) = some ser) := by
  refine ⟨rfl, ?_, ?_⟩
  · cases silentResult with
    | none =>
      cases hu : flow.lookup "user_code" with
      | none => simp [get_token, falsyDict, hu, exceptOk]
      | some u =>
        cases ht : deviceResult.lookup "access_token" with
        | none => simp [get_token, falsyDict, hu, ht, exceptOk]
        | some tok => simp [get_token, falsyDict, hu, ht, exceptOk]
    | some d =>
      by_cases he : d.isEmpty = true
      · cases hu : flow.lookup "user_code" with
        | none => simp [get_token, falsyDict, he, hu, exceptOk]
        | some u =>
          cases ht : deviceResult.lookup "access_token" with
          | none => simp [get_token, falsyDict, he, hu, ht, exceptOk]
          | some tok => simp [get_token, falsyDict, he, hu, ht, exceptOk]
      · have he2 : d.isEmpty = false := Bool.eq_false_iff.mpr he
        cases ht : d.lookup "access_token" with
        | none => simp [get_token, falsyDict, he2, ht, exceptOk]
        | some tok => simp [get_token, falsyDict, he2, ht, exceptOk]
  · intro hok
    cases hres : get_token c1 silentResult flow deviceResult ser with
    | error e =>
      rw [hres] at hok
      exact Bool.noConfusion hok
    | ok p =>
      have hser : p.2 = ser := by
        have := hres
        unfold get_token at this
        cases silentResult with
        | none =>
          cases hu : flow.lookup "user_code" with
          | none => simp [falsyDict, hu] at this
          | some u =>
            cases ht : deviceResult.lookup "access_token" with
            | none => simp [falsyDict, hu, ht] at this
            | some tok =>
              simp [falsyDict, hu, ht] at this
              rw [← this]
        | some d =>
          by_cases he : d.isEmpty = true
          · cases hu : flow.lookup "user_code" with
            | none => simp [falsyDict, he, hu] at this
            | some u =>
              cases ht : deviceResult.lookup "access_token" with
              | none => simp [falsyDict, he, hu, ht] at this
              | some tok =>
                simp [falsyDict, he, hu, ht] at this
                rw [← this]
          · have he2 : d.isEmpty = false := Bool.eq_false_iff.mpr he
            cases ht : d.lookup "access_token" with
            | none => simp [falsyDict, he2, ht] at this
            | some tok =>
              simp [falsyDict, he2, ht] at this
              rw [← this]
      simp [resCacheOf, hser]

theorem claim_C6_witness :
    resCacheOf (get_token none (some [("access_token", "T")]) [] [] "CACHE")
      = some "CACHE" := by
  have h := claim_C6_token none (some none) (some [("access_token", "T")]) [] [] "CACHE"
  exact h.2.2 (by decide)

/-- C8: a missing (`None`) subject or preview behaves exactly like the empty
string, and `qualifies` is total on such inputs; in particular
`qualifies(None, None)` evaluates (to `False`) without error. -/
theorem claim_C8_none :
    (∀ p, qualifies none p = qualifies (some "") p)
    ∧ (∀ s, qualifies s none = qualifies s (some ""))
    ∧ qualifies none none = false :=
  ⟨fun _ => rfl, fun _ => rfl, by decide⟩

end ScamTracker
